import Mathlib

/-!
# EVChargeGym — `EV_Charger` (src/evsim/ev_charger.py), shallow embedding

This file embeds the `EV_Charger` class in Lean 4 and proves/refutes the
specification claims about it.

Modelling conventions:
* Python floats become `ℚ` (exact rational arithmetic).
* Python `assert` failures, `raise Exception`, and runtime errors
  (`UnboundLocalError`, `AttributeError`, `ValueError`, `IndexError`)
  become `Except Err` with a dedicated `Err` constructor per error site.
* `round(x, 5)` becomes `round5` below; Python rounds half-to-even while
  `round` here rounds half-up, which differs only on exact ties in the 6th
  decimal — no claim in this development depends on a tie.
* The in-place mutation of the caller's `actions` list (the zeroing loop at
  lines 122-125 of `ev_charger.py` is the only mutation of that list) is
  modelled by `step` returning the caller-visible buffer in the
  `actions_after` field of its result.
* The vehicle model `ev.py` is imported by `ev_charger.py` but is not part
  of the sources; the `EV` structure below is modelled from the spec.
-/

namespace EvSim

/-- Error outcomes of the Python code, one constructor per error site. -/
inductive Err
  /-- Failure of `assert (len(actions) == self.n_ports)` (line 119). -/
  | assertLen
  /-- Failure of `assert action >= -1 and action <= 1` (line 142). -/
  | assertRange
  /-- Failure of `assert (self.n_evs_connected < self.n_ports)` (line 259). -/
  | assertSpawn
  /-- The explicit `raise Exception('sum of amps ...')` (lines 178-179). -/
  | ampsExceeded
  /-- Python `UnboundLocalError`: `actual_amps` used at line 176 before any
  assignment (line 163 assigns `actual_power` twice and never `actual_amps`). -/
  | unboundLocal
  /-- Python `AttributeError`: `.step` called on `None` (unreachable in practice). -/
  | attrNone
  /-- Python `ValueError`: `list.index(None)` with no `None` present (line 261). -/
  | valueMissing
  /-- Python `IndexError`: `self.evs_connected[i]` out of range. -/
  | indexRange
deriving DecidableEq, Repr

/-- Modelled from the spec: the vehicle model (`ev.py`) is missing from the
sources; the spec treats it as a black box exposing
`step(requested_current, voltage, charger_type) -> (actual_power, actual_current)`,
`is_departing(current_timestep) -> departure_marker_or_none`,
`get_user_satisfaction() -> score` and `get_state(current_timestep) ->
2-element numeric vector`.  A vehicle is modelled by its externally visible
responses; its internal state evolution is invisible to the station-level
claims (the station only reads the values these members return). -/
structure EV where
  /-- Field `ev.id`, overwritten by `spawn_ev` with the slot index. -/
  id : Int
  /-- The `ev.step(amps, voltage, type)` response: `(actual_power, actual_amps)`. -/
  resp : ℚ → ℚ → String → ℚ × ℚ
  /-- Whether `ev.is_departing(current_step)` returns a non-`None` marker. -/
  departs : ℕ → Bool
  /-- The `ev.get_user_satisfaction()` score. -/
  user_satisfaction : ℚ
  /-- The `ev.get_state(current_step)` contribution: a 2-element vector. -/
  state2 : ℕ → ℚ × ℚ
deriving Inhabited

/-- The `EV_Charger` object: configuration (immutable after `__init__`),
status and statistics fields, exactly the attributes of the Python class
(`geo_location` and `verbose` are omitted: they never influence the
computations the claims are about). -/
structure Charger where
  id : Int
  connected_bus : Int
  connected_transformer : Int
  n_ports : ℕ
  charger_type : String
  bi_directional : Bool
  timescale : ℚ
  min_charge_current : ℚ
  max_charge_current : ℚ
  min_discharge_current : ℚ
  max_discharge_current : ℚ
  voltage : ℚ
  current_power_output : ℚ
  evs_connected : List (Option EV)
  n_evs_connected : Int
  current_step : ℕ
  current_charge_price : ℚ
  current_discharge_price : ℚ
  current_total_amps : ℚ
  total_energy_charged : ℚ
  total_energy_discharged : ℚ
  total_profits : ℚ
  total_evs_served : Int
  total_user_satisfaction : ℚ
deriving Inhabited

/-- Constructor `EV_Charger.__init__` (lines 46-98). -/
def EV_Charger (id connected_bus connected_transformer : Int)
    (min_charge_current max_charge_current min_discharge_current
      max_discharge_current voltage : ℚ)
    (n_ports : ℕ) (charger_type : String) (bi_directional : Bool)
    (timescale : ℚ) : Charger where
  id := id
  connected_bus := connected_bus
  connected_transformer := connected_transformer
  n_ports := n_ports
  charger_type := charger_type
  bi_directional := bi_directional
  timescale := timescale
  min_charge_current := min_charge_current
  max_charge_current := max_charge_current
  min_discharge_current := min_discharge_current
  max_discharge_current := max_discharge_current
  voltage := voltage
  current_power_output := 0
  evs_connected := List.replicate n_ports none
  n_evs_connected := 0
  current_step := 0
  current_charge_price := 0
  current_discharge_price := 0
  current_total_amps := 0
  total_energy_charged := 0
  total_energy_discharged := 0
  total_profits := 0
  total_evs_served := 0
  total_user_satisfaction := 0

/-- Python's `round` to the nearest integer: round half to even. -/
def pyRound (y : ℚ) : ℤ :=
  if y - ⌊y⌋ < 1 / 2 then ⌊y⌋
  else if 1 / 2 < y - ⌊y⌋ then ⌊y⌋ + 1
  else if ⌊y⌋ % 2 = 0 then ⌊y⌋ else ⌊y⌋ + 1

/-- Python `round(x, 5)` (line 141): round to 5 decimal places. -/
def round5 (x : ℚ) : ℚ := (pyRound (x * 100000) : ℚ) / 100000

/-- The zeroing loop (lines 122-125): actions at empty ports are overwritten
with `0` in the caller's list, and each such port bumps
`invalid_action_punishment`.  Returns the mutated list and the counter. -/
def zeroPass : List (Option EV) → List ℚ → List ℚ × ℕ
  | none :: evs, _ :: as =>
      let r := zeroPass evs as
      (0 :: r.1, r.2 + 1)
  | some _ :: evs, a :: as =>
      let r := zeroPass evs as
      (a :: r.1, r.2)
  | _, as => (as, 0)

/-- The normalization step (lines 127-134): with `S = sum(actions)`, divide
by `S` when `S > 1`, map `a ↦ -a / S` when `S < -1`, else leave unchanged. -/
def normalizeActions (actions : List ℚ) : List ℚ :=
  if 1 < actions.sum then actions.map (fun a => a / actions.sum)
  else if actions.sum < -1 then actions.map (fun a => -a / actions.sum)
  else actions

/-- Charging-request current (lines 148-150): `amps = action *
max_charge_current`, zeroed when below `min_charge_current`. -/
def chargeAmps (c : Charger) (action : ℚ) : ℚ :=
  let amps := action * c.max_charge_current
  if amps < c.min_charge_current then 0 else amps

/-- Discharging-request current (lines 165-167): `amps = action *
abs(max_charge_current)`, replaced by `min_discharge_current` when above it. -/
def dischargeAmps (c : Charger) (action : ℚ) : ℚ :=
  let amps := action * |c.max_charge_current|
  if c.min_discharge_current < amps then c.min_discharge_current else amps

/-- The sign dispatch of the per-port loop body (lines 144-176), applied to
the already-rounded action.  The loop-local Python variables are threaded
explicitly: `profit`, and `aamps` for the local variable `actual_amps`
(`none` while unassigned, faithfully reproducing the `UnboundLocalError`
latent at line 176). -/
def portDispatch (cp dp : ℚ) (c : Charger) (profit : ℚ) (aamps : Option ℚ)
    (oev : Option EV) (action : ℚ) : Except Err (Charger × ℚ × Option ℚ) :=
  if action = 0 then
    -- `if action == 0 and self.evs_connected[i] is not None`: the zero
    -- request's return value is discarded, so it changes nothing here.
    .ok (c, profit, aamps)
  else if 0 < action then
    match oev with
    | none => .error .attrNone
    | some e =>
        let pa := e.resp (chargeAmps c action) c.voltage c.charger_type
        .ok ({ c with
                total_energy_charged := c.total_energy_charged + |pa.1|
                current_power_output := c.current_power_output + pa.1
                current_total_amps := c.current_total_amps + pa.2 },
             profit + |pa.1| * cp, some pa.2)
  else if !c.bi_directional then
    -- line 163: `actual_power, actual_power = 0, 0` — `actual_power` ends
    -- up 0 but `actual_amps` is NOT assigned, so line 176 reads the stale
    -- `actual_amps` (or fails when none exists yet).
    match aamps with
    | none => .error .unboundLocal
    | some a =>
        .ok ({ c with
                total_energy_discharged := c.total_energy_discharged + |(0 : ℚ)|
                current_power_output := c.current_power_output + 0
                current_total_amps := c.current_total_amps + a },
             profit + |(0 : ℚ)| * dp, some a)
  else
    match oev with
    | none => .error .attrNone
    | some e =>
        let pa := e.resp (dischargeAmps c action) c.voltage c.charger_type
        .ok ({ c with
                total_energy_discharged := c.total_energy_discharged + |pa.1|
                current_power_output := c.current_power_output + pa.1
                current_total_amps := c.current_total_amps + pa.2 },
             profit + |pa.1| * dp, some pa.2)

/-- One iteration of the per-port loop (lines 140-179): round the action,
assert it is in `[-1, 1]`, dispatch on its sign, then perform the aggregate
current check of lines 178-179. -/
def processPort (cp dp : ℚ) (c : Charger) (profit : ℚ) (aamps : Option ℚ)
    (oev : Option EV) (action0 : ℚ) : Except Err (Charger × ℚ × Option ℚ) :=
  if ¬(-1 ≤ round5 action0 ∧ round5 action0 ≤ 1) then .error .assertRange
  else
    match portDispatch cp dp c profit aamps oev (round5 action0) with
    | .error e => .error e
    | .ok r =>
        if c.max_charge_current < r.1.current_total_amps - 1 / 10000 then
          .error .ampsExceeded
        else .ok r

/-- The whole per-port loop (lines 140-179), pairing `normalized_actions`
with `self.evs_connected` by index. -/
def processPorts (cp dp : ℚ) : Charger → ℚ → Option ℚ → List (Option EV) →
    List ℚ → Except Err (Charger × ℚ)
  | c, profit, _, _, [] => .ok (c, profit)
  | c, profit, aamps, oev :: evs, a :: as =>
      match processPort cp dp c profit aamps oev a with
      | .error e => .error e
      | .ok (c', profit', aamps') => processPorts cp dp c' profit' aamps' evs as
  | _, _, _, [], _ :: _ => .error .indexRange

/-- The departure scan (lines 190-206): frees departing ports and collects
`(freed slots, number departed, satisfaction sum, satisfaction list)`. -/
def departScan (step : ℕ) : List (Option EV) →
    List (Option EV) × Int × ℚ × List ℚ
  | [] => ([], 0, 0, [])
  | none :: rest =>
      let r := departScan step rest
      (none :: r.1, r.2)
  | some e :: rest =>
      let r := departScan step rest
      if e.departs step then
        (none :: r.1, r.2.1 + 1, r.2.2.1 + e.user_satisfaction,
         e.user_satisfaction :: r.2.2.2)
      else (some e :: r.1, r.2)

/-- What `step` returns (line 210), plus the caller-visible `actions` buffer
(Python mutates the argument list in place; `actions_after` is its content
when `step` returns). -/
structure StepResult where
  profit : ℚ
  user_satisfaction : List ℚ
  invalid_action_punishment : ℕ
  actions_after : List ℚ
deriving Inhabited

/-- Lines 187-210 of `step`: add the step profit to the cumulative profit,
run the departure scan, advance the timestep and assemble the return value
(`z` is the zeroed action buffer and invalid-action counter). -/
def stepFinish (c1 : Charger) (profit : ℚ) (z : List ℚ × ℕ) :
    StepResult × Charger :=
  ({ profit := profit
     user_satisfaction := (departScan c1.current_step c1.evs_connected).2.2.2
     invalid_action_punishment := z.2
     actions_after := z.1 },
   { c1 with
     total_profits := c1.total_profits + profit
     evs_connected := (departScan c1.current_step c1.evs_connected).1
     n_evs_connected :=
       c1.n_evs_connected - (departScan c1.current_step c1.evs_connected).2.1
     total_evs_served :=
       c1.total_evs_served + (departScan c1.current_step c1.evs_connected).2.1
     total_user_satisfaction :=
       c1.total_user_satisfaction +
         (departScan c1.current_step c1.evs_connected).2.2.1
     current_step := c1.current_step + 1 })

/-- Method `EV_Charger.step(actions, charge_price, discharge_price)`
(lines 100-210). -/
def Charger.step (c : Charger) (actions : List ℚ) (charge_price discharge_price : ℚ) :
    Except Err (StepResult × Charger) :=
  if actions.length ≠ c.n_ports then .error .assertLen
  else if c.evs_connected.length ≠ actions.length then .error .indexRange
  else
    match processPorts charge_price discharge_price
        { c with
          current_power_output := 0
          current_total_amps := 0
          current_charge_price := charge_price
          current_discharge_price := discharge_price }
        0 none c.evs_connected
        (normalizeActions (zeroPass c.evs_connected actions).1) with
    | .error e => .error e
    | .ok (c1, profit) =>
        .ok (stepFinish c1 profit (zeroPass c.evs_connected actions))

/-- Python `list.index(None)` (line 261): index of the first empty slot,
`none` when every slot is occupied (Python raises `ValueError`). -/
def indexOfNone : List (Option EV) → Option ℕ
  | [] => none
  | none :: _ => some 0
  | some _ :: rest => (indexOfNone rest).map (· + 1)

/-- Method `EV_Charger.spawn_ev(ev)` (lines 254-271). -/
def Charger.spawn_ev (c : Charger) (ev : EV) : Except Err (ℕ × Charger) :=
  if ¬(c.n_evs_connected < (c.n_ports : Int)) then .error .assertSpawn
  else
    match indexOfNone c.evs_connected with
    | none => .error .valueMissing
    | some index =>
        .ok (index, { c with
          evs_connected := c.evs_connected.set index (some { ev with id := index })
          n_evs_connected := c.n_evs_connected + 1 })

/-- Method `EV_Charger.reset()` (lines 273-288).  Note: the current charge and
discharge prices are not touched by the Python code. -/
def Charger.reset (c : Charger) : Charger :=
  { c with
    current_power_output := 0
    current_total_amps := 0
    evs_connected := List.replicate c.n_ports none
    n_evs_connected := 0
    current_step := 0
    total_energy_charged := 0
    total_energy_discharged := 0
    total_profits := 0
    total_evs_served := 0
    total_user_satisfaction := 0 }

/-- Method `EV_Charger.get_avg_user_satisfaction()` (lines 248-252). -/
def Charger.get_avg_user_satisfaction (c : Charger) : ℚ :=
  if c.total_evs_served = 0 then 0
  else c.total_user_satisfaction / (c.total_evs_served : ℚ)

/-- Method `EV_Charger.get_state()` (lines 212-230): the two current prices followed
by each port's 2-element vehicle state (zeros for an empty port). -/
def Charger.get_state (c : Charger) : List ℚ :=
  c.current_charge_price :: c.current_discharge_price ::
    (c.evs_connected.map (fun oev =>
      match oev with
      | some e => [(e.state2 c.current_step).1, (e.state2 c.current_step).2]
      | none => [0, 0])).flatten

/-- The occupancy invariant of the data model: the slot array has exactly
`n_ports` entries and `n_evs_connected` counts the occupied ones.  (The third
part of the spec's invariant — each slot holds at most one vehicle — is
enforced by the representation itself: a slot is an `Option EV`.) -/
def Inv (c : Charger) : Prop :=
  c.evs_connected.length = c.n_ports ∧
    c.n_evs_connected = (c.evs_connected.countP (fun o => o.isSome) : Int)

instance (c : Charger) : Decidable (Inv c) := by
  unfold Inv; infer_instance

/-! ### Concrete stations and vehicles used in witnesses and counterexamples -/

/-- A vehicle whose model responses are all trivial; enough for scenarios in
which the vehicle's `step` is never consulted or its return value is zero. -/
def evFlat : EV where
  id := 0
  resp := fun _ _ _ => (0, 0)
  departs := fun _ => false
  user_satisfaction := 0
  state2 := fun _ => (0, 0)

/-- A vehicle that accepts exactly the requested current and reports it back
as both power and current: it makes the station-side request observable. -/
def evEcho : EV where
  id := 0
  resp := fun amps _ _ => (amps, amps)
  departs := fun _ => false
  user_satisfaction := 0
  state2 := fun _ => (0, 0)

def cW : Charger := EV_Charger 1 2 3 8 32 (-8) (-32) 230 1 "AC" true 5

def rW : StepResult × Charger :=
  stepFinish
    { cW with
      current_power_output := 0
      current_total_amps := 0
      current_charge_price := 5
      current_discharge_price := 7 }
    0 ([0], 1)

/-- The station of the C2 scenario: 1 port, non-bidirectional,
`max_charge_current = 32`, `voltage = 230`, one connected vehicle. -/
def cC2 : Charger :=
  { EV_Charger 0 0 0 8 32 (-8) (-32) 230 1 "AC" false 5 with
    evs_connected := [some evFlat], n_evs_connected := 1 }

/-- The station of the C4 counterexample: 2 ports, both occupied. -/
def cC4 : Charger :=
  { EV_Charger 0 0 0 8 32 (-8) (-32) 230 2 "AC" true 5 with
    evs_connected := [some evFlat, some evFlat], n_evs_connected := 2 }

/-- The station of the C5 scenario: 1 port, bidirectional, default limits
(`max_charge_current = 32`, `min_discharge_current = -8`), an echo vehicle. -/
def cC5 : Charger :=
  { EV_Charger 0 0 0 8 32 (-8) (-32) 230 1 "AC" true 5 with
    evs_connected := [some evEcho], n_evs_connected := 1 }

/-- A station with every port occupied, for the C7 full-station case. -/
def cFull : Charger :=
  { EV_Charger 1 2 3 8 32 (-8) (-32) 230 1 "AC" true 5 with
    evs_connected := [some evFlat], n_evs_connected := 1 }

/-! ### Frame predicate -/

/-- The Charger fields that one iteration of the per-port loop never touches
(it only updates energy, power and current accumulators). -/
def StatusFrame (c c' : Charger) : Prop :=
  c'.n_ports = c.n_ports ∧ c'.bi_directional = c.bi_directional ∧
    c'.max_charge_current = c.max_charge_current ∧
    c'.evs_connected = c.evs_connected ∧
    c'.n_evs_connected = c.n_evs_connected ∧
    c'.current_step = c.current_step

/-! ## Supporting lemmas -/

theorem pyRound_le (y : ℚ) : (pyRound y : ℚ) ≤ y + 1 / 2 := by
  unfold pyRound
  split_ifs with h1 h2 h3
  · have := Int.floor_le y
    linarith
  · push_cast
    linarith
  · have := Int.floor_le y
    linarith
  · push_cast
    linarith

theorem le_pyRound (y : ℚ) : y - 1 / 2 ≤ (pyRound y : ℚ) := by
  unfold pyRound
  split_ifs with h1 h2 h3
  · linarith
  · have := Int.lt_floor_add_one y
    push_cast
    linarith
  · linarith
  · have := Int.lt_floor_add_one y
    push_cast
    linarith

theorem round5_mem_Icc {x : ℚ} (h1 : -1 ≤ x) (h2 : x ≤ 1) :
    -1 ≤ round5 x ∧ round5 x ≤ 1 := by
  unfold round5
  have hu : (pyRound (x * 100000) : ℚ) ≤ 100000 + 1 / 2 := by
    have := pyRound_le (x * 100000)
    linarith
  have hl : -(100000 + 1 / 2) ≤ (pyRound (x * 100000) : ℚ) := by
    have := le_pyRound (x * 100000)
    linarith
  have hu' : pyRound (x * 100000) ≤ 100000 := by
    by_contra hc
    push_neg at hc
    have : (100001 : ℚ) ≤ (pyRound (x * 100000) : ℚ) := by
      exact_mod_cast Int.add_one_le_iff.mpr hc
    linarith
  have hl' : -100000 ≤ pyRound (x * 100000) := by
    by_contra hc
    push_neg at hc
    have : (pyRound (x * 100000) : ℚ) ≤ -100001 := by
      exact_mod_cast Int.le_sub_one_iff.mpr hc
    linarith
  have hu'' : (pyRound (x * 100000) : ℚ) ≤ 100000 := by exact_mod_cast hu'
  have hl'' : (-100000 : ℚ) ≤ (pyRound (x * 100000) : ℚ) := by exact_mod_cast hl'
  constructor
  · linarith
  · linarith

theorem zeroPass_length : ∀ (evs : List (Option EV)) (as : List ℚ),
    evs.length = as.length → (zeroPass evs as).1.length = as.length
  | [], [], _ => rfl
  | none :: evs, a :: as, h => by
      simp only [zeroPass, List.length_cons]
      exact congrArg (· + 1) (zeroPass_length evs as (by simpa using h))
  | some e :: evs, a :: as, h => by
      simp only [zeroPass, List.length_cons]
      exact congrArg (· + 1) (zeroPass_length evs as (by simpa using h))

theorem zeroPass_count : ∀ (evs : List (Option EV)) (as : List ℚ),
    evs.length = as.length →
    (zeroPass evs as).2 = evs.countP (fun o => o.isNone)
  | [], [], _ => rfl
  | none :: evs, a :: as, h => by
      have ih := zeroPass_count evs as (by simpa using h)
      simp [zeroPass, List.countP_cons, ih]
  | some e :: evs, a :: as, h => by
      have ih := zeroPass_count evs as (by simpa using h)
      simp [zeroPass, List.countP_cons, ih]

theorem zeroPass_getD_of_none : ∀ (evs : List (Option EV)) (as : List ℚ) (i : ℕ),
    evs.length = as.length → i < evs.length → evs.getD i none = none →
    (zeroPass evs as).1.getD i 0 = 0
  | none :: evs, a :: as, 0, _, _, _ => rfl
  | some e :: evs, a :: as, 0, _, _, hn => by simp at hn
  | none :: evs, a :: as, i + 1, h, hi, hn => by
      simpa [zeroPass] using
        zeroPass_getD_of_none evs as i (by simpa using h) (by simpa using hi)
          (by simpa using hn)
  | some e :: evs, a :: as, i + 1, h, hi, hn => by
      simpa [zeroPass] using
        zeroPass_getD_of_none evs as i (by simpa using h) (by simpa using hi)
          (by simpa using hn)

theorem zeroPass_getD_of_some : ∀ (evs : List (Option EV)) (as : List ℚ) (i : ℕ),
    (evs.getD i none).isSome → (zeroPass evs as).1.getD i 0 = as.getD i 0
  | [], as, i, hs => by simp at hs
  | none :: evs, a :: as, 0, hs => by simp at hs
  | some e :: evs, a :: as, 0, _ => rfl
  | none :: evs, a :: as, i + 1, hs => by
      simpa [zeroPass] using zeroPass_getD_of_some evs as i (by simpa using hs)
  | some e :: evs, a :: as, i + 1, hs => by
      simpa [zeroPass] using zeroPass_getD_of_some evs as i (by simpa using hs)
  | none :: evs, [], i, hs => by simp [zeroPass]
  | some e :: evs, [], i, hs => by simp [zeroPass]

theorem zeroPass_mem : ∀ (evs : List (Option EV)) (as : List ℚ) (b : ℚ),
    b ∈ (zeroPass evs as).1 → b = 0 ∨ b ∈ as
  | [], as, b, h => Or.inr h
  | none :: evs, a :: as, b, h => by
      rcases List.mem_cons.mp h with h0 | h1
      · exact Or.inl h0
      · rcases zeroPass_mem evs as b h1 with h2 | h2
        · exact Or.inl h2
        · exact Or.inr (List.mem_cons.mpr (Or.inr h2))
  | some e :: evs, a :: as, b, h => by
      rcases List.mem_cons.mp h with h0 | h1
      · exact Or.inr (List.mem_cons.mpr (Or.inl h0))
      · rcases zeroPass_mem evs as b h1 with h2 | h2
        · exact Or.inl h2
        · exact Or.inr (List.mem_cons.mpr (Or.inr h2))
  | none :: evs, [], b, h => by simp [zeroPass] at h
  | some e :: evs, [], b, h => by simp [zeroPass] at h

theorem sum_map_div (l : List ℚ) (s : ℚ) :
    (l.map (fun a => a / s)).sum = l.sum / s := by
  induction l with
  | nil => simp
  | cons a l ih => simp [ih, add_div]

theorem sum_map_neg_div (l : List ℚ) (s : ℚ) :
    (l.map (fun a => -a / s)).sum = -l.sum / s := by
  induction l with
  | nil => simp
  | cons a l ih =>
      simp only [List.map_cons, List.sum_cons, ih]
      ring

theorem getD_map_div (l : List ℚ) (s : ℚ) : ∀ i : ℕ,
    (l.map (fun a => a / s)).getD i 0 = l.getD i 0 / s := by
  induction l with
  | nil => intro i; simp
  | cons a l ih =>
      intro i
      cases i with
      | zero => rfl
      | succ j => simpa using ih j

theorem getD_map_neg_div (l : List ℚ) (s : ℚ) : ∀ i : ℕ,
    (l.map (fun a => -a / s)).getD i 0 = -(l.getD i 0) / s := by
  induction l with
  | nil => intro i; simp
  | cons a l ih =>
      intro i
      cases i with
      | zero => rfl
      | succ j => simpa using ih j

theorem normalizeActions_length (as : List ℚ) :
    (normalizeActions as).length = as.length := by
  unfold normalizeActions
  split_ifs <;> simp

theorem normalizeActions_sum_pos {as : List ℚ} (h : 1 < as.sum) :
    (normalizeActions as).sum = 1 := by
  unfold normalizeActions
  rw [if_pos h, sum_map_div]
  exact div_self (by linarith)

theorem normalizeActions_sum_neg {as : List ℚ} (h : as.sum < -1) :
    (normalizeActions as).sum = -1 := by
  unfold normalizeActions
  rw [if_neg (by linarith), if_pos h, sum_map_neg_div]
  rw [neg_div, div_self (by linarith)]

theorem normalizeActions_id {as : List ℚ} (h1 : ¬1 < as.sum) (h2 : ¬as.sum < -1) :
    normalizeActions as = as := by
  unfold normalizeActions
  rw [if_neg h1, if_neg h2]

theorem normalizeActions_ratio (as : List ℚ) (i j : ℕ) :
    (normalizeActions as).getD i 0 * as.getD j 0 =
      (normalizeActions as).getD j 0 * as.getD i 0 := by
  unfold normalizeActions
  split_ifs
  · rw [getD_map_div, getD_map_div]
    ring
  · rw [getD_map_neg_div, getD_map_neg_div]
    ring
  · ring

theorem sum_nonpos' {l : List ℚ} (h : ∀ x ∈ l, x ≤ 0) : l.sum ≤ 0 := by
  induction l with
  | nil => simp
  | cons a l ih =>
      have ha := h a (List.mem_cons_self a l)
      have := ih (fun x hx => h x (List.mem_cons_of_mem a hx))
      simp only [List.sum_cons]
      linarith

theorem sum_le_single_of_nonpos {l : List ℚ} (h : ∀ x ∈ l, x ≤ 0) :
    ∀ x ∈ l, l.sum ≤ x := by
  induction l with
  | nil => simp
  | cons a l ih =>
      intro x hx
      have ha := h a (List.mem_cons_self a l)
      have hl := sum_nonpos' (fun y hy => h y (List.mem_cons_of_mem a hy))
      rcases List.mem_cons.mp hx with rfl | hx'
      · simp only [List.sum_cons]
        linarith
      · have := ih (fun y hy => h y (List.mem_cons_of_mem a hy)) x hx'
        have hx0 := h x hx
        simp only [List.sum_cons]
        linarith

theorem normalizeActions_bounds_of_nonneg {as : List ℚ} (h : ∀ a ∈ as, 0 ≤ a) :
    ∀ b ∈ normalizeActions as, -1 ≤ b ∧ b ≤ 1 := by
  unfold normalizeActions
  split_ifs with h1 h2
  · intro b hb
    rcases List.mem_map.mp hb with ⟨a, ha, rfl⟩
    have ha0 := h a ha
    have hale := List.single_le_sum h a ha
    have hs : (0 : ℚ) < as.sum := by linarith
    constructor
    · have : (0 : ℚ) ≤ a / as.sum := div_nonneg ha0 (le_of_lt hs)
      linarith
    · rw [div_le_one hs]
      exact hale
  · exfalso
    have : (0 : ℚ) ≤ as.sum := List.sum_nonneg h
    linarith
  · intro b hb
    have hb0 := h b hb
    have hble := List.single_le_sum h b hb
    constructor
    · linarith
    · linarith

theorem normalizeActions_bounds_of_nonpos {as : List ℚ} (h : ∀ a ∈ as, a ≤ 0) :
    ∀ b ∈ normalizeActions as, -1 ≤ b ∧ b ≤ 1 := by
  unfold normalizeActions
  split_ifs with h1 h2
  · exfalso
    have := sum_nonpos' h
    linarith
  · intro b hb
    rcases List.mem_map.mp hb with ⟨a, ha, rfl⟩
    have ha0 := h a ha
    have hale := sum_le_single_of_nonpos h a ha
    have hs : as.sum < 0 := by linarith
    constructor
    · rw [le_div_iff_of_neg hs]
      linarith
    · rw [div_le_iff_of_neg hs]
      linarith
  · intro b hb
    have hb0 := h b hb
    have hble := sum_le_single_of_nonpos h b hb
    constructor
    · linarith
    · linarith

theorem normalizeActions_bounds_of_Icc {as : List ℚ}
    (h : ∀ a ∈ as, -1 ≤ a ∧ a ≤ 1) :
    ∀ b ∈ normalizeActions as, -1 ≤ b ∧ b ≤ 1 := by
  unfold normalizeActions
  split_ifs with h1 h2
  · intro b hb
    rcases List.mem_map.mp hb with ⟨a, ha, rfl⟩
    obtain ⟨hal, har⟩ := h a ha
    have hs : (0 : ℚ) < as.sum := by linarith
    constructor
    · rw [le_div_iff₀ hs]
      nlinarith
    · rw [div_le_one hs]
      linarith
  · intro b hb
    rcases List.mem_map.mp hb with ⟨a, ha, rfl⟩
    obtain ⟨hal, har⟩ := h a ha
    have hs : as.sum < 0 := by linarith
    constructor
    · rw [le_div_iff_of_neg hs]
      nlinarith
    · rw [div_le_iff_of_neg hs]
      nlinarith
  · exact h

theorem StatusFrame.rfl (c : Charger) : StatusFrame c c :=
  ⟨Eq.refl _, Eq.refl _, Eq.refl _, Eq.refl _, Eq.refl _, Eq.refl _⟩

theorem StatusFrame.trans {a b c : Charger} (h1 : StatusFrame a b)
    (h2 : StatusFrame b c) : StatusFrame a c := by
  obtain ⟨p1, p2, p3, p4, p5, p6⟩ := h1
  obtain ⟨q1, q2, q3, q4, q5, q6⟩ := h2
  exact ⟨q1.trans p1, q2.trans p2, q3.trans p3, q4.trans p4, q5.trans p5,
    q6.trans p6⟩

theorem portDispatch_ok_frame {cp dp : ℚ} {c : Charger} {pr : ℚ}
    {am : Option ℚ} {oev : Option EV} {a : ℚ} {r : Charger × ℚ × Option ℚ}
    (h : portDispatch cp dp c pr am oev a = .ok r) : StatusFrame c r.1 := by
  unfold portDispatch at h
  split at h
  · cases h
    exact StatusFrame.rfl c
  · split at h
    · split at h
      · cases h
      · cases h
        exact ⟨Eq.refl _, Eq.refl _, Eq.refl _, Eq.refl _, Eq.refl _, Eq.refl _⟩
    · split at h
      · split at h
        · cases h
        · cases h
          exact ⟨Eq.refl _, Eq.refl _, Eq.refl _, Eq.refl _, Eq.refl _, Eq.refl _⟩
      · split at h
        · cases h
        · cases h
          exact ⟨Eq.refl _, Eq.refl _, Eq.refl _, Eq.refl _, Eq.refl _, Eq.refl _⟩

theorem processPort_ok_frame {cp dp : ℚ} {c : Charger} {pr : ℚ} {am : Option ℚ}
    {oev : Option EV} {a : ℚ} {r : Charger × ℚ × Option ℚ}
    (h : processPort cp dp c pr am oev a = .ok r) :
    StatusFrame c r.1 ∧
      ¬(c.max_charge_current < r.1.current_total_amps - 1 / 10000) := by
  unfold processPort at h
  split at h
  · cases h
  · split at h
    · cases h
    · rename_i r0 heq
      split at h
      · cases h
      · cases h
        exact ⟨portDispatch_ok_frame heq, by assumption⟩

theorem processPorts_ok_frame {cp dp : ℚ} : ∀ {as : List ℚ} {c : Charger}
    {pr : ℚ} {am : Option ℚ} {evs : List (Option EV)} {c' : Charger} {pr' : ℚ},
    processPorts cp dp c pr am evs as = .ok (c', pr') → StatusFrame c c'
  | [], c, pr, am, evs, c', pr', h => by
      cases evs <;> · cases h; exact StatusFrame.rfl c
  | a :: as, c, pr, am, [], c', pr', h => by cases h
  | a :: as, c, pr, am, oev :: evs, c', pr', h => by
      rw [processPorts] at h
      cases hp : processPort cp dp c pr am oev a with
      | error e => rw [hp] at h; cases h
      | ok r =>
          rw [hp] at h
          exact ((processPort_ok_frame hp).1).trans (processPorts_ok_frame h)

theorem processPorts_final_check {cp dp : ℚ} : ∀ {as : List ℚ} {c : Charger}
    {pr : ℚ} {am : Option ℚ} {evs : List (Option EV)} {c' : Charger} {pr' : ℚ},
    as ≠ [] → processPorts cp dp c pr am evs as = .ok (c', pr') →
    ¬(c'.max_charge_current < c'.current_total_amps - 1 / 10000)
  | [], _, _, _, _, _, _, hne, _ => absurd rfl hne
  | a :: as, c, pr, am, [], c', pr', _, h => by cases h
  | a :: as, c, pr, am, oev :: evs, c', pr', _, h => by
      rw [processPorts] at h
      cases hp : processPort cp dp c pr am oev a with
      | error e => rw [hp] at h; cases h
      | ok r =>
          rw [hp] at h
          cases as with
          | nil =>
              obtain ⟨hf, hchk⟩ := processPort_ok_frame hp
              cases evs with
              | nil =>
                  cases h
                  rw [hf.2.2.1]
                  exact hchk
              | cons o os =>
                  cases h
                  rw [hf.2.2.1]
                  exact hchk
          | cons b bs =>
              exact processPorts_final_check (List.cons_ne_nil b bs) h

theorem portDispatch_ne_assertRange {cp dp : ℚ} {c : Charger} {pr : ℚ}
    {am : Option ℚ} {oev : Option EV} {a : ℚ} :
    portDispatch cp dp c pr am oev a ≠ .error .assertRange := by
  unfold portDispatch
  split
  · simp
  · split
    · split <;> simp
    · split
      · split <;> simp
      · split <;> simp

theorem processPort_ne_assertRange {cp dp : ℚ} {c : Charger} {pr : ℚ}
    {am : Option ℚ} {oev : Option EV} {a : ℚ}
    (h : -1 ≤ round5 a ∧ round5 a ≤ 1) :
    processPort cp dp c pr am oev a ≠ .error .assertRange := by
  unfold processPort
  rw [if_neg (not_not_intro h)]
  cases hd : portDispatch cp dp c pr am oev (round5 a) with
  | error e =>
      intro hc
      injection hc with hc'
      subst hc'
      exact portDispatch_ne_assertRange hd
  | ok r =>
      split
      · rename_i heq
        cases heq
      · split <;> simp

theorem processPorts_ne_assertRange {cp dp : ℚ} : ∀ {as : List ℚ}
    {c : Charger} {pr : ℚ} {am : Option ℚ} {evs : List (Option EV)},
    (∀ a ∈ as, -1 ≤ round5 a ∧ round5 a ≤ 1) →
    processPorts cp dp c pr am evs as ≠ .error .assertRange
  | [], c, pr, am, evs, _ => by cases evs <;> simp [processPorts]
  | a :: as, c, pr, am, [], _ => by simp [processPorts]
  | a :: as, c, pr, am, oev :: evs, hin => by
      rw [processPorts]
      cases hp : processPort cp dp c pr am oev a with
      | error e =>
          intro hc
          injection hc with hc'
          subst hc'
          exact processPort_ne_assertRange (hin a (List.mem_cons_self a as)) hp
      | ok r =>
          exact processPorts_ne_assertRange
            (fun b hb => hin b (List.mem_cons_of_mem a hb))

theorem departScan_length (n : ℕ) : ∀ evs : List (Option EV),
    (departScan n evs).1.length = evs.length
  | [] => rfl
  | none :: evs => by
      simp only [departScan, List.length_cons]
      rw [departScan_length n evs]
  | some e :: evs => by
      simp only [departScan]
      split_ifs <;> simp [departScan_length n evs]

theorem departScan_count (n : ℕ) : ∀ evs : List (Option EV),
    (evs.countP (fun o => o.isSome) : Int) =
      ((departScan n evs).1.countP (fun o => o.isSome) : Int) +
        (departScan n evs).2.1
  | [] => rfl
  | none :: evs => by
      have ih := departScan_count n evs
      simp only [departScan, List.countP_cons]
      simpa using ih
  | some e :: evs => by
      have ih := departScan_count n evs
      by_cases hd : e.departs n = true
      · simp [departScan, hd, List.countP_cons]
        push_cast at ih ⊢
        linarith
      · simp [departScan, hd, List.countP_cons]
        push_cast at ih ⊢
        linarith

theorem step_ok_parts {c : Charger} {actions : List ℚ} {cp dp : ℚ}
    {r : StepResult × Charger} (h : c.step actions cp dp = .ok r) :
    actions.length = c.n_ports ∧ c.evs_connected.length = actions.length ∧
    ∃ c1 profit,
      processPorts cp dp
          { c with
            current_power_output := 0
            current_total_amps := 0
            current_charge_price := cp
            current_discharge_price := dp }
          0 none c.evs_connected
          (normalizeActions (zeroPass c.evs_connected actions).1) =
        .ok (c1, profit) ∧
      r = stepFinish c1 profit (zeroPass c.evs_connected actions) := by
  unfold Charger.step at h
  split at h
  · cases h
  · split at h
    · cases h
    · rename_i h1 h2
      refine ⟨not_ne_iff.mp h1, not_ne_iff.mp h2, ?_⟩
      split at h
      · cases h
      · rename_i c1 profit heq
        exact ⟨c1, profit, heq, (Except.ok.inj h).symm⟩

theorem portDispatch_zero {cp dp : ℚ} {c : Charger} {pr : ℚ} {am : Option ℚ}
    {oev : Option EV} : portDispatch cp dp c pr am oev 0 = .ok (c, pr, am) := by
  unfold portDispatch
  rw [if_pos rfl]

theorem portDispatch_pos {cp dp : ℚ} {c : Charger} {pr : ℚ} {am : Option ℚ}
    {e : EV} {a : ℚ} (ha : 0 < a) :
    portDispatch cp dp c pr am (some e) a =
      .ok ({ c with
              total_energy_charged := c.total_energy_charged +
                |(e.resp (chargeAmps c a) c.voltage c.charger_type).1|
              current_power_output := c.current_power_output +
                (e.resp (chargeAmps c a) c.voltage c.charger_type).1
              current_total_amps := c.current_total_amps +
                (e.resp (chargeAmps c a) c.voltage c.charger_type).2 },
           pr + |(e.resp (chargeAmps c a) c.voltage c.charger_type).1| * cp,
           some (e.resp (chargeAmps c a) c.voltage c.charger_type).2) := by
  unfold portDispatch
  rw [if_neg (by exact ne_of_gt ha), if_pos ha]

theorem portDispatch_neg_nonbi {cp dp : ℚ} {c : Charger} {pr : ℚ}
    {oev : Option EV} {a : ℚ} (ha : a < 0) (hb : c.bi_directional = false) :
    portDispatch cp dp c pr none oev a = .error .unboundLocal := by
  unfold portDispatch
  rw [if_neg (by exact ne_of_lt ha), if_neg (by exact not_lt_of_gt ha),
    if_pos (by rw [hb]; rfl)]

theorem portDispatch_neg_bi {cp dp : ℚ} {c : Charger} {pr : ℚ} {am : Option ℚ}
    {e : EV} {a : ℚ} (ha : a < 0) (hb : c.bi_directional = true) :
    portDispatch cp dp c pr am (some e) a =
      .ok ({ c with
              total_energy_discharged := c.total_energy_discharged +
                |(e.resp (dischargeAmps c a) c.voltage c.charger_type).1|
              current_power_output := c.current_power_output +
                (e.resp (dischargeAmps c a) c.voltage c.charger_type).1
              current_total_amps := c.current_total_amps +
                (e.resp (dischargeAmps c a) c.voltage c.charger_type).2 },
           pr + |(e.resp (dischargeAmps c a) c.voltage c.charger_type).1| * dp,
           some (e.resp (dischargeAmps c a) c.voltage c.charger_type).2) := by
  unfold portDispatch
  rw [if_neg (by exact ne_of_lt ha), if_neg (by exact not_lt_of_gt ha),
    if_neg (by rw [hb]; simp)]

theorem processPort_dispatch {cp dp : ℚ} {c : Charger} {pr : ℚ}
    {am : Option ℚ} {oev : Option EV} {a : ℚ}
    (h : -1 ≤ round5 a ∧ round5 a ≤ 1) :
    processPort cp dp c pr am oev a =
      match portDispatch cp dp c pr am oev (round5 a) with
      | .error e => .error e
      | .ok r =>
          if c.max_charge_current < r.1.current_total_amps - 1 / 10000 then
            .error .ampsExceeded
          else .ok r := by
  unfold processPort
  rw [if_neg (not_not_intro h)]

/-- The discharge request of lines 165-167 is the pointwise minimum of
`action * |max_charge_current|` and `min_discharge_current`. -/
theorem dischargeAmps_eq_min (c : Charger) (action : ℚ) :
    dischargeAmps c action =
      min (action * |c.max_charge_current|) c.min_discharge_current := by
  unfold dischargeAmps
  rcases le_or_lt (action * |c.max_charge_current|) c.min_discharge_current with h | h
  · rw [if_neg (not_lt_of_ge h), min_eq_left h]
  · rw [if_pos h, min_eq_right (le_of_lt h)]

theorem round5_zero : round5 0 = 0 := by norm_num [round5, pyRound]

/-- C1: during `step`, after each port's processing the aggregate current is
checked; if it exceeds `max_charge_current` by more than the tolerance
`1e-4` the loop iteration raises immediately (first conjunct: whenever the
dispatched port update would leave the aggregate above the tolerance, the
iteration returns the `ampsExceeded` exception).  Consequently, whenever
`step` returns normally, the post-step aggregate current
`current_total_amps` does not exceed `max_charge_current` by more than
`1e-4` (second conjunct; the spec's data model fixes the port count at
`N ≥ 1`, which is assumed here: with at least one port the loop body and
hence its final check runs). -/
theorem c1_step_current_bounded (c : Charger) (actions : List ℚ) (cp dp : ℚ)
    (r : StepResult × Charger) (hports : 1 ≤ c.n_ports)
    (h : c.step actions cp dp = .ok r) :
    (∀ (c0 : Charger) (pr : ℚ) (am : Option ℚ) (oev : Option EV) (a : ℚ)
        (r0 : Charger × ℚ × Option ℚ),
      -1 ≤ round5 a → round5 a ≤ 1 →
      portDispatch cp dp c0 pr am oev (round5 a) = .ok r0 →
      c0.max_charge_current < r0.1.current_total_amps - 1 / 10000 →
      processPort cp dp c0 pr am oev a = .error .ampsExceeded) ∧
    r.2.current_total_amps ≤ c.max_charge_current + 1 / 10000 := by
  refine ⟨?_, ?_⟩
  · intro c0 pr am oev a r0 h1 h2 hd hex
    rw [processPort_dispatch ⟨h1, h2⟩, hd]
    dsimp only
    rw [if_pos hex]
  obtain ⟨hlen, hevs, c1, profit, hpp, hr⟩ := step_ok_parts h
  have hzl : (zeroPass c.evs_connected actions).1.length = actions.length :=
    zeroPass_length _ _ hevs
  have hne : normalizeActions (zeroPass c.evs_connected actions).1 ≠ [] := by
    intro hnil
    have := normalizeActions_length (zeroPass c.evs_connected actions).1
    rw [hnil, hzl, hlen] at this
    simp at this
    omega
  have hchk := processPorts_final_check hne hpp
  have hfr := processPorts_ok_frame hpp
  have hmax : c1.max_charge_current = c.max_charge_current := by
    simpa using hfr.2.2.1
  have hamps : r.2.current_total_amps = c1.current_total_amps := by
    rw [hr]
    rfl
  rw [hamps, ← hmax]
  by_contra hc
  push_neg at hc
  exact hchk (by linarith)

theorem cW_step_eval : cW.step [0] 5 7 = Except.ok rW := by
  unfold Charger.step
  rw [if_neg (by decide), if_neg (by decide)]
  have he : cW.evs_connected = [none] := rfl
  have hz : zeroPass cW.evs_connected [0] = ([0], 1) := rfl
  rw [hz]
  have hn : normalizeActions [0] = [0] := by norm_num [normalizeActions]
  rw [hn, he]
  simp only [processPorts]
  rw [processPort_dispatch (by rw [round5_zero]; norm_num), round5_zero,
    portDispatch_zero]
  dsimp only
  rw [if_neg (by norm_num [cW, EV_Charger])]
  rfl

theorem c1_step_current_bounded_witness :
    1 ≤ cW.n_ports ∧ cW.step [0] 5 7 = Except.ok rW ∧
      rW.2.current_total_amps ≤ cW.max_charge_current + 1 / 10000 :=
  ⟨by decide, cW_step_eval,
    (c1_step_current_bounded cW [0] 5 7 rW (by decide) cW_step_eval).2⟩

theorem round5_neg_half : round5 (-1 / 2) = -1 / 2 := by
  norm_num [round5, pyRound]

/-- C2, failing run: on a 1-port non-bidirectional station
(`max_charge_current = 32`, `voltage = 230`) with one occupying vehicle, the
discharge action `-0.5` does NOT complete normally with a zero contribution
as the claim states: line 163 (`actual_power, actual_power = 0, 0`) is a
typo that never assigns `actual_amps`, so line 176
(`self.current_total_amps += actual_amps`) raises Python's
`UnboundLocalError` — the spec states the clear intent (force actual
power/current to `(0, 0)`) and the code is a slip. -/
theorem c2_nonbidirectional_discharge_crash :
    cC2.step [-1 / 2] 5 7 = Except.error Err.unboundLocal := by
  unfold Charger.step
  rw [if_neg (by decide), if_neg (by decide)]
  have he : cC2.evs_connected = [some evFlat] := rfl
  have hz : zeroPass cC2.evs_connected [-1 / 2] = ([-1 / 2], 0) := rfl
  rw [hz]
  have hn : normalizeActions [-1 / 2] = [-1 / 2] := by norm_num [normalizeActions]
  rw [hn, he]
  simp only [processPorts]
  rw [processPort_dispatch (by rw [round5_neg_half]; norm_num), round5_neg_half,
    portDispatch_neg_nonbi (by norm_num) rfl]

/-- C3: with `S` the sum of the (empty-port-zeroed) actions: if `S > 1`
every action is divided by `S`, the normalized actions sum to exactly 1 and
pairwise ratios are preserved (stated cross-multiplied:
`n_i * a_j = n_j * a_i`); if `S < -1` every action is divided by `-S`, the
normalized actions sum to exactly -1 and ratios are preserved; otherwise
the actions are left unchanged. -/
theorem c3_normalization (as : List ℚ) :
    (1 < as.sum →
      (normalizeActions as).sum = 1 ∧
        ∀ i j : ℕ, (normalizeActions as).getD i 0 * as.getD j 0 =
          (normalizeActions as).getD j 0 * as.getD i 0) ∧
    (as.sum < -1 →
      (normalizeActions as).sum = -1 ∧
        ∀ i j : ℕ, (normalizeActions as).getD i 0 * as.getD j 0 =
          (normalizeActions as).getD j 0 * as.getD i 0) ∧
    (-1 ≤ as.sum → as.sum ≤ 1 → normalizeActions as = as) :=
  ⟨fun h => ⟨normalizeActions_sum_pos h, normalizeActions_ratio as⟩,
   fun h => ⟨normalizeActions_sum_neg h, normalizeActions_ratio as⟩,
   fun h1 h2 => normalizeActions_id (not_lt_of_ge h2) (not_lt_of_ge h1)⟩

theorem c3_normalization_witness :
    (1 < ([3 / 4, 3 / 4] : List ℚ).sum ∧
      (normalizeActions [3 / 4, 3 / 4]).sum = 1) ∧
    (([-3 / 4, -3 / 4] : List ℚ).sum < -1 ∧
      (normalizeActions [-3 / 4, -3 / 4]).sum = -1) ∧
    (-1 ≤ ([1 / 4] : List ℚ).sum ∧ ([1 / 4] : List ℚ).sum ≤ 1 ∧
      normalizeActions [1 / 4] = [1 / 4]) :=
  ⟨⟨by norm_num, ((c3_normalization [3 / 4, 3 / 4]).1 (by norm_num)).1⟩,
   ⟨by norm_num, ((c3_normalization [-3 / 4, -3 / 4]).2.1 (by norm_num)).1⟩,
   by norm_num, by norm_num,
   (c3_normalization [1 / 4]).2.2 (by norm_num) (by norm_num)⟩

/-- C4, counterexample: the claim that the in-range assertion never fails
for any input vector is false.  On a 2-port station with both ports
occupied, the input `[2, -2]` survives zeroing unchanged, its sum 0
triggers no normalization, and the first rounded action 2 violates the
`[-1, 1]` assertion: `step` fails with `assertRange`. -/
theorem c4_range_assert_fails :
    cC4.step [2, -2] 0 0 = Except.error Err.assertRange := by
  unfold Charger.step
  rw [if_neg (by decide), if_neg (by decide)]
  have he : cC4.evs_connected = [some evFlat, some evFlat] := rfl
  have hz : zeroPass cC4.evs_connected [2, -2] = ([2, -2], 0) := rfl
  rw [hz]
  have hn : normalizeActions [2, -2] = [2, -2] := by norm_num [normalizeActions]
  rw [hn, he]
  simp only [processPorts]
  have hr5 : round5 2 = 2 := by norm_num [round5, pyRound]
  unfold processPort
  rw [if_pos (by rw [hr5]; norm_num)]

/-- C4, amended: if the input actions are all nonnegative, or all
nonpositive, or each already lies in `[-1, 1]`, then every per-port action
after empty-port zeroing, normalization and rounding to 5 decimals lies in
`[-1, 1]`, and the in-range assertion inside `step` never fails (the
`assertRange` outcome is impossible).  Without such a restriction the
assertion can fail — see the counterexample. -/
theorem c4_range_assert_amended (c : Charger) (actions : List ℚ) (cp dp : ℚ)
    (hsign : (∀ a ∈ actions, 0 ≤ a) ∨ (∀ a ∈ actions, a ≤ 0) ∨
      (∀ a ∈ actions, -1 ≤ a ∧ a ≤ 1)) :
    c.step actions cp dp ≠ Except.error Err.assertRange := by
  unfold Charger.step
  split
  · simp
  · split
    · simp
    · have hb : ∀ b ∈ normalizeActions (zeroPass c.evs_connected actions).1,
          -1 ≤ b ∧ b ≤ 1 := by
        rcases hsign with h | h | h
        · apply normalizeActions_bounds_of_nonneg
          intro a ha
          rcases zeroPass_mem _ _ a ha with rfl | hmem
          · exact le_refl 0
          · exact h a hmem
        · apply normalizeActions_bounds_of_nonpos
          intro a ha
          rcases zeroPass_mem _ _ a ha with rfl | hmem
          · exact le_refl 0
          · exact h a hmem
        · apply normalizeActions_bounds_of_Icc
          intro a ha
          rcases zeroPass_mem _ _ a ha with rfl | hmem
          · norm_num
          · exact h a hmem
      have hror : ∀ b ∈ normalizeActions (zeroPass c.evs_connected actions).1,
          -1 ≤ round5 b ∧ round5 b ≤ 1 := fun b hbm =>
        round5_mem_Icc (hb b hbm).1 (hb b hbm).2
      cases hpp : processPorts cp dp
          { c with
            current_power_output := 0
            current_total_amps := 0
            current_charge_price := cp
            current_discharge_price := dp }
          0 none c.evs_connected
          (normalizeActions (zeroPass c.evs_connected actions).1) with
      | error e =>
          dsimp only
          intro hc
          injection hc with h'
          subst h'
          exact processPorts_ne_assertRange hror hpp
      | ok r =>
          obtain ⟨c1, profit⟩ := r
          simp

theorem c4_range_assert_amended_witness :
    (∀ a ∈ ([0] : List ℚ), 0 ≤ a) ∧
      cW.step [0] 0 0 ≠ Except.error Err.assertRange :=
  ⟨by norm_num, c4_range_assert_amended cW [0] 0 0 (Or.inl (by norm_num))⟩

/-- C5, counterexample: the claim that the requested discharge current is
clamped so that its magnitude does not exceed `|min_discharge_current|` is
false.  On the default bidirectional station (`max_charge_current = 32`,
`min_discharge_current = -8`) the action `-0.5` produces a request of
`-16` A — magnitude 16 > 8 — and a run of `step` with a vehicle that echoes
the request back confirms that `-16` A is what reaches the vehicle and the
aggregate current. -/
theorem c5_discharge_clamp_counterexample :
    dischargeAmps cC5 (-1 / 2) = -16 ∧
      ¬(|dischargeAmps cC5 (-1 / 2)| ≤ |cC5.min_discharge_current|) ∧
      (cC5.step [-1 / 2] 0 0).map (fun r => r.2.current_total_amps) =
        Except.ok (-16) := by
  have hda : dischargeAmps cC5 (-1 / 2) = -16 := by
    norm_num [dischargeAmps, cC5, EV_Charger]
  refine ⟨hda, by rw [hda]; norm_num [cC5, EV_Charger], ?_⟩
  unfold Charger.step
  rw [if_neg (by decide), if_neg (by decide)]
  have he : cC5.evs_connected = [some evEcho] := rfl
  have hz : zeroPass cC5.evs_connected [-1 / 2] = ([-1 / 2], 0) := rfl
  rw [hz]
  have hn : normalizeActions [-1 / 2] = [-1 / 2] := by norm_num [normalizeActions]
  rw [hn, he]
  simp only [processPorts]
  rw [processPort_dispatch (by rw [round5_neg_half]; norm_num), round5_neg_half,
    portDispatch_neg_bi (by norm_num) rfl]
  dsimp only
  rw [if_neg (by norm_num [cC5, EV_Charger, evEcho, dischargeAmps])]
  dsimp only [Except.map]
  rw [Except.ok.injEq]
  show (stepFinish _ _ _).2.current_total_amps = -16
  norm_num [stepFinish, cC5, EV_Charger, evEcho, dischargeAmps]

/-- C5, amended: for a bidirectional station and an occupied port with a
negative (rounded, in-range) action, the current requested from the
vehicle's step is `min(action * |max_charge_current|,
min_discharge_current)` — i.e. weak requests are *raised* to
`min_discharge_current` (magnitude at least `|min_discharge_current|`, and
up to `|max_charge_current|`), not capped at it; profit accrues as
`|actual power| * discharge_price`, and cumulative energy discharged,
aggregate power and aggregate current accumulate the actual values
returned by the vehicle, followed by the aggregate-current check. -/
theorem c5_discharge_branch_amended (cp dp : ℚ) (c : Charger) (pr : ℚ)
    (am : Option ℚ) (e : EV) (a : ℚ) (hb : c.bi_directional = true)
    (hneg : round5 a < 0) (hge : -1 ≤ round5 a) :
    processPort cp dp c pr am (some e) a =
      (let amps := min (round5 a * |c.max_charge_current|)
        c.min_discharge_current
       let pa := e.resp amps c.voltage c.charger_type
       let c' := { c with
         total_energy_discharged := c.total_energy_discharged + |pa.1|
         current_power_output := c.current_power_output + pa.1
         current_total_amps := c.current_total_amps + pa.2 }
       if c.max_charge_current < c'.current_total_amps - 1 / 10000 then
         .error .ampsExceeded
       else .ok (c', pr + |pa.1| * dp, some pa.2)) := by
  rw [processPort_dispatch ⟨hge, le_of_lt (lt_of_lt_of_le hneg zero_le_one)⟩,
    portDispatch_neg_bi hneg hb, dischargeAmps_eq_min]

theorem c5_discharge_branch_amended_witness :
    cC5.bi_directional = true ∧ round5 (-1 / 2) < 0 ∧ -1 ≤ round5 (-1 / 2) ∧
    processPort 0 0 cC5 0 none (some evEcho) (-1 / 2) =
      Except.ok
        ({ cC5 with
            total_energy_discharged := cC5.total_energy_discharged + 16
            current_power_output := cC5.current_power_output + -16
            current_total_amps := cC5.current_total_amps + -16 },
         0, some (-16)) := by
  have hneg : round5 (-1 / 2) < 0 := by rw [round5_neg_half]; norm_num
  have hge : (-1 : ℚ) ≤ round5 (-1 / 2) := by rw [round5_neg_half]; norm_num
  refine ⟨rfl, hneg, hge, ?_⟩
  have h := c5_discharge_branch_amended 0 0 cC5 0 none evEcho (-1 / 2) rfl
    hneg hge
  rw [h, round5_neg_half]
  norm_num [cC5, EV_Charger, evEcho]

/-- C6: in every normally-returning call to `step`, each port with no
occupying vehicle has its action forced to 0 (regardless of the supplied
value) and bumps the invalid-action counter; the third component of the
return value equals exactly the number of empty ports at call time. -/
theorem c6_invalid_action_count (c : Charger) (actions : List ℚ) (cp dp : ℚ)
    (r : StepResult × Charger) (h : c.step actions cp dp = .ok r) :
    r.1.invalid_action_punishment =
        c.evs_connected.countP (fun o => o.isNone) ∧
      ∀ i : ℕ, i < c.n_ports → c.evs_connected.getD i none = none →
        r.1.actions_after.getD i 0 = 0 := by
  obtain ⟨hlen, hevs, c1, profit, hpp, hr⟩ := step_ok_parts h
  subst hr
  constructor
  · exact zeroPass_count _ _ hevs
  · intro i hi hnone
    exact zeroPass_getD_of_none _ _ _ hevs (by rw [hevs, hlen]; exact hi) hnone

theorem indexOfNone_none {l : List (Option EV)}
    (h : indexOfNone l = none) : ∀ o ∈ l, o.isSome := by
  induction l with
  | nil => simp
  | cons o rest ih =>
      cases o with
      | none => simp [indexOfNone] at h
      | some e =>
          simp only [indexOfNone, Option.map_eq_none'] at h
          intro x hx
          rcases List.mem_cons.mp hx with rfl | hx'
          · rfl
          · exact ih h x hx'

theorem indexOfNone_some : ∀ {l : List (Option EV)} {i : ℕ},
    indexOfNone l = some i →
    i < l.length ∧ (∀ d : Option EV, l.getD i d = none) ∧
      ∀ j : ℕ, j < i → (l.getD j none).isSome := by
  intro l
  induction l with
  | nil => intro i h; simp [indexOfNone] at h
  | cons o rest ih =>
      intro i h
      cases o with
      | none =>
          simp only [indexOfNone, Option.some.injEq] at h
          subst h
          refine ⟨by simp, fun d => rfl, ?_⟩
          intro j hj
          omega
      | some e =>
          simp only [indexOfNone, Option.map_eq_some'] at h
          obtain ⟨i', hi', rfl⟩ := h
          obtain ⟨h1, h2, h3⟩ := ih hi'
          refine ⟨by simpa using h1, fun d => h2 d, ?_⟩
          intro j hj
          cases j with
          | zero => rfl
          | succ j' => exact h3 j' (by omega)

theorem c6_invalid_action_count_witness :
    cW.step [0] 5 7 = Except.ok rW ∧
      rW.1.invalid_action_punishment =
        cW.evs_connected.countP (fun o => o.isNone) :=
  ⟨cW_step_eval, (c6_invalid_action_count cW [0] 5 7 rW cW_step_eval).1⟩

/-- C7: under the occupancy invariant, `spawn_ev` on a station with
occupied count strictly below `n_ports` attaches the vehicle to the empty
port of lowest index (all lower-indexed slots are occupied, the chosen slot
is empty), assigns the vehicle the slot index as its identifier, increments
the occupied count by one and returns the assigned index; with occupied
count equal to `n_ports` it fails with the `assert` contract violation and
attaches nothing (no state is produced). -/
theorem c7_spawn_ev (c : Charger) (ev : EV) (hInv : Inv c) :
    (c.n_evs_connected < (c.n_ports : Int) →
      ∃ i : ℕ,
        c.spawn_ev ev = .ok (i, { c with
          evs_connected := c.evs_connected.set i (some { ev with id := i })
          n_evs_connected := c.n_evs_connected + 1 }) ∧
        i < c.evs_connected.length ∧
        (∀ j : ℕ, j < i → (c.evs_connected.getD j none).isSome) ∧
        (∀ d : Option EV, c.evs_connected.getD i d = none)) ∧
    (c.n_evs_connected = (c.n_ports : Int) →
      c.spawn_ev ev = .error .assertSpawn) := by
  constructor
  · intro hlt
    unfold Charger.spawn_ev
    rw [if_neg (not_not_intro hlt)]
    cases hidx : indexOfNone c.evs_connected with
    | none =>
        exfalso
        have hall : ∀ o ∈ c.evs_connected, o.isSome := indexOfNone_none hidx
        have hcount : c.evs_connected.countP (fun o => o.isSome) =
            c.evs_connected.length := List.countP_eq_length.mpr hall
        rw [hInv.2, hcount, hInv.1] at hlt
        exact lt_irrefl _ hlt
    | some i =>
        obtain ⟨h1, h2, h3⟩ := indexOfNone_some hidx
        exact ⟨i, rfl, h1, h3, h2⟩
  · intro heq
    unfold Charger.spawn_ev
    rw [if_pos (by rw [heq]; exact lt_irrefl _)]

theorem c7_spawn_ev_witness :
    (Inv cW ∧ cW.n_evs_connected < (cW.n_ports : Int) ∧
      ∃ i : ℕ,
        cW.spawn_ev evFlat = .ok (i, { cW with
          evs_connected := cW.evs_connected.set i (some { evFlat with id := i })
          n_evs_connected := cW.n_evs_connected + 1 }) ∧
        i < cW.evs_connected.length ∧
        (∀ j : ℕ, j < i → (cW.evs_connected.getD j none).isSome) ∧
        (∀ d : Option EV, cW.evs_connected.getD i d = none)) ∧
    (Inv cFull ∧ cFull.n_evs_connected = (cFull.n_ports : Int) ∧
      cFull.spawn_ev evFlat = .error .assertSpawn) :=
  ⟨⟨by decide, by decide,
      (c7_spawn_ev cW evFlat (by decide)).1 (by decide)⟩,
   ⟨by decide, by decide,
      (c7_spawn_ev cFull evFlat (by decide)).2 (by decide)⟩⟩

theorem countP_isSome_set : ∀ (l : List (Option EV)) (i : ℕ) (x : EV),
    i < l.length → (∀ d : Option EV, l.getD i d = none) →
    (l.set i (some x)).countP (fun o => o.isSome) =
      l.countP (fun o => o.isSome) + 1
  | [], i, x, hi, _ => by simp at hi
  | o :: rest, 0, x, _, hn => by
      have : o = none := hn (some x)
      subst this
      simp [List.countP_cons]
  | o :: rest, i + 1, x, hi, hn => by
      have ih := countP_isSome_set rest i x (by simpa using hi)
        (fun d => by simpa using hn d)
      show (o :: rest.set i (some x)).countP (fun o => o.isSome) = _
      simp only [List.countP_cons, ih]
      omega

/-- C8: the invariant `Inv` — the port array has exactly `n_ports` slots
and `n_evs_connected` equals the number of occupied slots (each slot holds
at most one vehicle by the very representation `Option EV`) — holds after
construction and is preserved by every normally-returning `step` (including
its departure scan), by every successful `spawn_ev`, and by `reset`. -/
theorem c8_occupancy_invariant (c : Charger) (hInv : Inv c) :
    (∀ (id bus tr : Int) (micc macc midc madc v : ℚ) (n : ℕ) (t : String)
        (b : Bool) (ts : ℚ),
      Inv (EV_Charger id bus tr micc macc midc madc v n t b ts)) ∧
    (∀ (actions : List ℚ) (cp dp : ℚ) (r : StepResult × Charger),
      c.step actions cp dp = .ok r → Inv r.2) ∧
    (∀ (ev : EV) (i : ℕ) (c' : Charger),
      c.spawn_ev ev = .ok (i, c') → Inv c') ∧
    Inv c.reset := by
  refine ⟨?_, ?_, ?_, ?_⟩
  · intro id bus tr micc macc midc madc v n t b ts
    constructor
    · simp [EV_Charger]
    · simp only [EV_Charger]
      rw [List.countP_eq_zero.mpr]
      · rfl
      · intro o ho
        rw [List.eq_of_mem_replicate ho]
        simp
  · intro actions cp dp r h
    obtain ⟨hlen, hevs, c1, profit, hpp, hr⟩ := step_ok_parts h
    have hfr := processPorts_ok_frame hpp
    have hevs1 : c1.evs_connected = c.evs_connected := by
      simpa using hfr.2.2.2.1
    have hnev1 : c1.n_evs_connected = c.n_evs_connected := by
      simpa using hfr.2.2.2.2.1
    have hnp1 : c1.n_ports = c.n_ports := by simpa using hfr.1
    subst hr
    constructor
    · show (departScan c1.current_step c1.evs_connected).1.length = c1.n_ports
      rw [departScan_length, hevs1, hnp1, hInv.1]
    · show c1.n_evs_connected - (departScan c1.current_step c1.evs_connected).2.1 =
        ((departScan c1.current_step c1.evs_connected).1.countP
          (fun o => o.isSome) : Int)
      have hcount := departScan_count c1.current_step c1.evs_connected
      rw [hevs1] at hcount ⊢
      rw [hnev1, hInv.2]
      omega
  · intro ev i c' h
    unfold Charger.spawn_ev at h
    split at h
    · cases h
    · cases hidx : indexOfNone c.evs_connected with
      | none =>
          rw [hidx] at h
          cases h
      | some idx =>
          rw [hidx] at h
          obtain ⟨h1, h2, h3⟩ := indexOfNone_some hidx
          injection h with h'
          obtain ⟨h4, h5⟩ := Prod.mk.inj h'
          rw [← h5]
          constructor
          · show (c.evs_connected.set idx _).length = c.n_ports
            rw [List.length_set, hInv.1]
          · show c.n_evs_connected + 1 = _
            rw [hInv.2]
            have := countP_isSome_set c.evs_connected idx
              { ev with id := (idx : Int) } h1 h2
            rw [this]
            push_cast
            ring
  · constructor
    · show (List.replicate c.n_ports none).length = c.n_ports
      simp
    · show (0 : Int) = _
      rw [List.countP_eq_zero.mpr]
      · rfl
      · intro o ho
        rw [List.eq_of_mem_replicate ho]
        simp

theorem c8_occupancy_invariant_witness : Inv cW ∧ Inv cW.reset :=
  ⟨by decide, (c8_occupancy_invariant cW (by decide)).2.2.2⟩

/-- C9, counterexample: the claim that `reset()` restores all mutable
status fields to zero is false for the current charge/discharge prices
(mutable status fields in the spec's data model): after a `step` with
prices 5 and 7, `reset` leaves `current_charge_price = 5` and
`current_discharge_price = 7`. -/
theorem c9_reset_price_counterexample :
    cW.step [0] 5 7 = Except.ok rW ∧
      rW.2.reset.current_charge_price = 5 ∧
      rW.2.reset.current_discharge_price = 7 ∧ (5 : ℚ) ≠ 0 :=
  ⟨cW_step_eval, rfl, rfl, by norm_num⟩

/-- C9, amended: `reset()` restores all mutable status and statistics
fields to the zero/empty state *except* the current charge and discharge
prices, which retain their last values; it does not alter the immutable
configuration (id, bus, transformer, current limits, voltage, `n_ports`,
charger type, bidirectional flag, timescale); after `reset()`,
`get_avg_user_satisfaction()` returns 0 and `get_state()` returns an
all-zero vector except the two leading price fields. -/
theorem c9_reset_amended (c : Charger) :
    c.reset.current_power_output = 0 ∧ c.reset.current_total_amps = 0 ∧
    c.reset.evs_connected = List.replicate c.n_ports none ∧
    c.reset.n_evs_connected = 0 ∧ c.reset.current_step = 0 ∧
    c.reset.total_energy_charged = 0 ∧ c.reset.total_energy_discharged = 0 ∧
    c.reset.total_profits = 0 ∧ c.reset.total_evs_served = 0 ∧
    c.reset.total_user_satisfaction = 0 ∧
    c.reset.current_charge_price = c.current_charge_price ∧
    c.reset.current_discharge_price = c.current_discharge_price ∧
    c.reset.id = c.id ∧ c.reset.connected_bus = c.connected_bus ∧
    c.reset.connected_transformer = c.connected_transformer ∧
    c.reset.n_ports = c.n_ports ∧ c.reset.charger_type = c.charger_type ∧
    c.reset.bi_directional = c.bi_directional ∧
    c.reset.timescale = c.timescale ∧
    c.reset.min_charge_current = c.min_charge_current ∧
    c.reset.max_charge_current = c.max_charge_current ∧
    c.reset.min_discharge_current = c.min_discharge_current ∧
    c.reset.max_discharge_current = c.max_discharge_current ∧
    c.reset.voltage = c.voltage ∧
    c.reset.get_avg_user_satisfaction = 0 ∧
    c.reset.get_state = c.current_charge_price ::
      c.current_discharge_price ::
        (List.replicate c.n_ports ([0, 0] : List ℚ)).flatten := by
  refine ⟨rfl, rfl, rfl, rfl, rfl, rfl, rfl, rfl, rfl, rfl, rfl, rfl, rfl,
    rfl, rfl, rfl, rfl, rfl, rfl, rfl, rfl, rfl, rfl, rfl, ?_, ?_⟩
  · simp [Charger.get_avg_user_satisfaction, Charger.reset]
  · simp [Charger.get_state, Charger.reset, List.map_replicate]

/-- C10: `step` mutates its `actions` argument in place — the zeroing loop
overwrites the caller's entries at empty ports with 0 before normalization,
occupied-port entries are left untouched, and the mutation remains visible
after `step` returns.  The in-place Python mutation is modelled by `step`
returning the caller-visible buffer `actions_after`, which equals the
`zeroPass` image of the input. -/
theorem c10_actions_mutated (c : Charger) (actions : List ℚ) (cp dp : ℚ)
    (r : StepResult × Charger) (h : c.step actions cp dp = .ok r) :
    r.1.actions_after = (zeroPass c.evs_connected actions).1 ∧
    (∀ i : ℕ, i < c.n_ports → c.evs_connected.getD i none = none →
      r.1.actions_after.getD i 0 = 0) ∧
    (∀ i : ℕ, i < c.n_ports → (c.evs_connected.getD i none).isSome →
      r.1.actions_after.getD i 0 = actions.getD i 0) := by
  obtain ⟨hlen, hevs, c1, profit, hpp, hr⟩ := step_ok_parts h
  subst hr
  refine ⟨rfl, ?_, ?_⟩
  · intro i hi hnone
    exact zeroPass_getD_of_none _ _ _ hevs (by rw [hevs, hlen]; exact hi) hnone
  · intro i hi hsome
    exact zeroPass_getD_of_some _ _ _ hsome

theorem c10_actions_mutated_witness :
    cW.step [0] 5 7 = Except.ok rW ∧
      rW.1.actions_after = (zeroPass cW.evs_connected [0]).1 :=
  ⟨cW_step_eval, (c10_actions_mutated cW [0] 5 7 rW cW_step_eval).1⟩

end EvSim
